import Mathlib

/-!
Verification of the pinglong probing/statistics tool (`pinglong.py`) against its
specification, via a shallow embedding in Lean.

Latencies and wait times are modelled as rationals (`ℚ`); the Python floats in
scope here carry exact decimal values.  The SQLite tables are modelled as Lean
lists: the `destinations` table as a list of integer addresses (its PRIMARY KEY
uniqueness is what raises `IntegrityError` on duplicate insert), and the per-IP
slice of the `pings` table as a list of `(latency, is_alive)` pairs (timestamp
and ttl play no role in the claims).  The CPython `statistics` library calls
made by the source (`median`, `quantiles(..., n=100, method='inclusive')`) are
embedded following the CPython implementation (3.8–3.12, the versions current
to the source; `quantiles` raises `StatisticsError` on fewer than two data
points there).
-/

namespace Pinglong

/-- Python `min(latencies)` for a nonempty list: left fold of binary `min`
over the tail.  The default `d` is returned only on `[]`, where CPython raises
`ValueError`; every call site below is guarded by a nonemptiness test. -/
def pyMin (l : List ℚ) (d : ℚ) : ℚ :=
  match l with
  | [] => d
  | x :: xs => xs.foldl min x

/-- Python `max(latencies)` for a nonempty list, analogous to `pyMin`. -/
def pyMax (l : List ℚ) (d : ℚ) : ℚ :=
  match l with
  | [] => d
  | x :: xs => xs.foldl max x

/-- CPython `statistics.median`: sort the data; middle element for odd length,
mean of the two middle elements for even length.  The default `d` is returned
only on `[]`, where CPython raises `StatisticsError`; call sites are guarded. -/
def pyMedian (data : List ℚ) (d : ℚ) : ℚ :=
  let s := data.insertionSort (· ≤ ·)
  let n := s.length
  if n = 0 then d
  else if n % 2 = 1 then s.getD (n / 2) 0
  else (s.getD (n / 2 - 1) 0 + s.getD (n / 2) 0) / 2

/-- CPython `statistics.quantiles(data, n, method='inclusive')` (3.8–3.12):
raises unless `n ≥ 1`; sorts the data; raises unless at least two data points;
then returns the `n - 1` cut points, the `i`-th (1-based) interpolated between
`data[j]` and `data[j+1]` where `j, delta = divmod(i * (len - 1), n)`. -/
def quantilesInclusive (data : List ℚ) (n : ℕ) : Except String (List ℚ) :=
  if n < 1 then .error "n must be at least 1"
  else
    let s := data.insertionSort (· ≤ ·)
    let ld := s.length
    if ld < 2 then .error "must have at least two data points"
    else
      let m := ld - 1
      .ok ((List.range (n - 1)).map (fun k =>
        let i := k + 1
        let j := i * m / n
        let d := i * m % n
        (s.getD j 0 * ((n : ℚ) - (d : ℚ)) + s.getD (j + 1) 0 * (d : ℚ)) / (n : ℚ)))

/-- Per-endpoint summary produced by `PingDB.gather_stats`: the dictionary
`{"total_pings", "min_rtt", "max_rtt", "median_rtt", "95th_rtt",
"total_alive"}` (the `95th_rtt` key is spelled `p95_rtt` here). -/
structure Summary where
  total_pings : ℕ
  min_rtt : ℚ
  max_rtt : ℚ
  median_rtt : ℚ
  p95_rtt : ℚ
  total_alive : ℕ
deriving Repr, DecidableEq

/-- One endpoint's slice of the `pings` table: `(latency, is_alive)` rows. -/
abbrev PingRecords := List (ℚ × Bool)

/-- The latencies selected by `SELECT latency FROM pings WHERE ip=? AND
is_alive=1`, in row order. -/
def aliveLatencies (records : PingRecords) : List ℚ :=
  (records.filter (fun r => r.2)).map (fun r => r.1)

/-- The body of `PingDB.gather_stats` for one endpoint: `total_pings` counts
all rows, `total_alive` the alive rows; if no alive latency exists all four
latency statistics are the sentinel `-1`; otherwise they are `min`, `max`,
`statistics.median` and entry 94 of `statistics.quantiles(latencies, n=100,
method='inclusive')` (the 95th percentile).  An exception escaping the Python
code is an `Except.error`. -/
def gatherStatsFor (records : PingRecords) : Except String Summary :=
  let latencies := aliveLatencies records
  if latencies.length = 0 then
    .ok { total_pings := records.length, min_rtt := -1, max_rtt := -1,
          median_rtt := -1, p95_rtt := -1,
          total_alive := (records.filter (fun r => r.2)).length }
  else
    match quantilesInclusive latencies 100 with
    | .error e => .error e
    | .ok percentiles =>
        .ok { total_pings := records.length,
              min_rtt := pyMin latencies 0,
              max_rtt := pyMax latencies 0,
              median_rtt := pyMedian latencies 0,
              p95_rtt := percentiles.getD 94 0,
              total_alive := (records.filter (fun r => r.2)).length }

/-- The `Prober.feasible` property: `time_between_rounds >
len(self.ips) / self.num_parallel_pings * self.time_between_chunks`, with
Python true division on the counts. -/
def feasible (L N : ℕ) (chunk_wait round_wait : ℚ) : Bool :=
  decide (round_wait > (L : ℚ) / (N : ℚ) * chunk_wait)

/-- The batch slices taken by `Prober.runloop`: `for i in range(0,
len(ips_to_ping), N): chunk = ips_to_ping[i:i+N]`, i.e. the consecutive
length-`≤ N` slices of the working list.  `range` with step `0` raises
`ValueError` in Python, so `N = 0` yields no chunks here and every claim about
batching assumes `0 < N`. -/
def pingChunks (N : ℕ) (l : List ℕ) : List (List ℕ) :=
  if _h : N = 0 ∨ l = [] then []
  else l.take N :: pingChunks N (l.drop N)
termination_by l.length
decreasing_by
  push_neg at _h
  have h1 : 0 < N := Nat.pos_of_ne_zero _h.1
  have h2 : 0 < l.length := List.length_pos.mpr _h.2
  simpa using Nat.sub_lt h2 h1

/-- Observable scheduling events of `Prober.runloop`: probing one chunk,
the `time.sleep(time_between_chunks)` after each chunk, and the
`time.sleep(time_between_rounds)` of the statement after the `while` loop. -/
inductive Event where
  | probe : List ℕ → Event
  | sleepChunk : Event
  | sleepRound : Event
deriving Repr, DecidableEq

/-- One iteration of the `while True:` body of `Prober.runloop`, given the
freshly re-read (and possibly shuffled) working list for that pass: each chunk
is probed and then followed by the chunk-level sleep. -/
def passEvents (N : ℕ) (ips : List ℕ) : List Event :=
  (pingChunks N ips).flatMap (fun c => [Event.probe c, Event.sleepChunk])

/-- The literal condition of `while True:` in `Prober.runloop`. -/
def runloopCond : Bool := true

/-- Event trace of `Prober.runloop` observed across its first `passes.length`
iterations of the `while` loop, `passes` listing the working list of each
pass.  The statement after the loop, `time.sleep(self.time_between_rounds)`,
executes only when the loop exits normally, i.e. only when its condition
tests false; a `KeyboardInterrupt` jumps to the `except` handler, also past
that statement. -/
def runloopTrace (N : ℕ) (passes : List (List ℕ)) : List Event :=
  passes.flatMap (passEvents N) ++ (if runloopCond then [] else [Event.sleepRound])

/-- The `destinations` table: `ip INTEGER PRIMARY KEY` rows in insertion
order (metadata plays no role in the claims). -/
structure DestTable where
  rows : List ℕ
deriving Repr, DecidableEq

/-- The host addresses of an IPv4 network, as `ipaddress.IPv4Network.hosts()`
yields them: for prefix length at most 30, every address strictly between the
network address and the broadcast address; for a /31, both addresses; for a
/32, the single address.  `net` is the integer network address and `plen` the
prefix length. -/
def hostsOf (net plen : ℕ) : List ℕ :=
  let size := 2 ^ (32 - plen)
  if 31 ≤ plen then (List.range size).map (fun k => net + k)
  else (List.range (size - 2)).map (fun k => net + 1 + k)

/-- The loop of `PingDB.add_ips`: insert each host in order; a host already
present raises `sqlite3.IntegrityError` (PRIMARY KEY), which is caught,
reported as a skip, and processing continues.  Returns the new table and the
number of skipped (already-tracked) hosts. -/
def addIps (t : DestTable) : List ℕ → DestTable × ℕ
  | [] => (t, 0)
  | ip :: rest =>
    if ip ∈ t.rows then
      ((addIps t rest).1, (addIps t rest).2 + 1)
    else addIps ⟨t.rows ++ [ip]⟩ rest

/-- Rounding of `x` to the nearest integer, ties to even: the rounding C
`printf` (and hence Python `%f` formatting) applies to the digit string. -/
def roundHalfEven (q : ℚ) : ℤ :=
  let f := ⌊q⌋
  let r := q - (f : ℚ)
  if r < 1 / 2 then f
  else if 1 / 2 < r then f + 1
  else if f % 2 = 0 then f else f + 1

/-- Python `"%0.2f" % q`: the value rendered with exactly two digits after the
decimal point. -/
def fmt2 (q : ℚ) : String :=
  let n := roundHalfEven (q * 100)
  let sign := if n < 0 then "-" else ""
  let a := n.natAbs
  sign ++ toString (a / 100) ++ "." ++ (if a % 100 < 10 then "0" else "") ++ toString (a % 100)

/-- The header line both output paths of `PingDB.show_stats` emit. -/
def csvHeader : String := "IP,total_pings,min_rtt,max_rtt,median_rtt,95th_rtt,total_alive"

/-- One data row of `PingDB.show_stats`: `"%s,%d,%0.2f,%0.2f,%0.2f,%0.2f,%d" %
(str(ip), r[total_pings], r[min_rtt], r[max_rtt], r[median_rtt], r[95th_rtt],
r[total_alive])`. -/
def formatRow (ip : String) (r : Summary) : String :=
  ip ++ "," ++ toString r.total_pings ++ "," ++ fmt2 r.min_rtt ++ "," ++ fmt2 r.max_rtt
     ++ "," ++ fmt2 r.median_rtt ++ "," ++ fmt2 r.p95_rtt ++ "," ++ toString r.total_alive

/-- Outcome of `PingDB.show_stats`: the lines printed to the console, the
lines written to the output file (when an outfile is given), and the uncaught
exception, if any, that aborted the file loop. -/
structure ShowResult where
  console : List String
  file : List String
  err : Option String
deriving Repr, DecidableEq

/-- `PingDB.show_stats` over the gathered `results` (an ip-keyed mapping,
modelled in enumeration order).  The console loop binds `r = results[ip]` for
each row; the file loop does NOT rebind `r`, so each file row is formatted
from whatever `r` holds after the console loop: the last console summary when
`display` was true and `results` is nonempty, and otherwise `r` is unbound and
the first data-row write raises `NameError` — after the header was written. -/
def show_stats (results : List (String × Summary)) (display outfile : Bool) : ShowResult :=
  let console := if display then csvHeader :: results.map (fun p => formatRow p.1 p.2) else []
  let rLast : Option Summary := if display then (results.map Prod.snd).getLast? else none
  if outfile then
    match rLast with
    | some r => ⟨console, csvHeader :: results.map (fun p => formatRow p.1 r), none⟩
    | none =>
        if results.isEmpty then ⟨console, [csvHeader], none⟩
        else ⟨console, [csvHeader], some "NameError: name r is not defined"⟩
  else ⟨console, [], none⟩

/-- The 95 % quantile of a data list under the inclusive interpolation
convention, written from the specification text: the sorted data are placed so
that the minimum is the 0th and the maximum the 100th percentile, and the cut
point at 95 % is interpolated linearly between the two neighbouring sorted
values at rational rank `95 * (length - 1) / 100`. -/
def inclusiveQuantile95Spec (data : List ℚ) : ℚ :=
  let s := data.insertionSort (· ≤ ·)
  let m := s.length - 1
  let j := 95 * m / 100
  let g : ℚ := ((95 * m : ℕ) : ℚ) / 100 - (j : ℚ)
  s.getD j 0 + g * (s.getD (j + 1) 0 - s.getD j 0)

/-- Concrete summary used by the rendering claims: the one of the spec example
`{total_pings:10, min:1.00, max:5.00, median:2.50, p95:4.90, alive:8}`. -/
def exSummaryA : Summary :=
  { total_pings := 10, min_rtt := 1, max_rtt := 5, median_rtt := 5 / 2,
    p95_rtt := 49 / 10, total_alive := 8 }

/-- A second concrete summary, distinguishable from `exSummaryA` in every
latency field. -/
def exSummaryB : Summary :=
  { total_pings := 7, min_rtt := 2, max_rtt := 9, median_rtt := 6,
    p95_rtt := 17 / 2, total_alive := 4 }

/-- C1: an endpoint that appears in the ping log but never with
`is_alive = true` gets the sentinel `-1` for all four latency statistics
(an ordinary value, not an error), `total_alive = 0`, and `total_pings`
counting every record. -/
theorem C1_no_alive_sentinel (records : PingRecords)
    (h : ∀ r ∈ records, r.2 = false) :
    gatherStatsFor records =
      .ok { total_pings := records.length, min_rtt := -1, max_rtt := -1,
            median_rtt := -1, p95_rtt := -1, total_alive := 0 } := by
  have hf : records.filter (fun r => r.2) = [] := by
    rw [List.filter_eq_nil_iff]
    intro a ha
    simp [h a ha]
  simp [gatherStatsFor, aliveLatencies, hf]

/-- Witness for C1 at a concrete two-record log with no alive record. -/
theorem C1_witness :
    gatherStatsFor [((5 : ℚ), false), ((3 : ℚ), false)] =
      .ok { total_pings := 2, min_rtt := -1, max_rtt := -1,
            median_rtt := -1, p95_rtt := -1, total_alive := 0 } :=
  C1_no_alive_sentinel _ (by decide)

/-- C2: the feasibility check is a pure predicate holding iff
`round_wait > (L / N) * chunk_wait` under real division, true at
`L=100, N=10, chunk_wait=5, round_wait=60` and false at `round_wait=40`. -/
theorem C2_feasible_iff :
    (∀ (L N : ℕ) (cw rw : ℚ),
        feasible L N cw rw = true ↔ rw > (L : ℚ) / (N : ℚ) * cw) ∧
    feasible 100 10 5 60 = true ∧ feasible 100 10 5 40 = false := by
  refine ⟨fun L N cw rw => ?_, ?_, ?_⟩
  · simp [feasible]
  · norm_num [feasible]
  · norm_num [feasible]

/-- C6: across any finite number of passes of `Prober.runloop`, the
round-level pause never occurs in the event trace: the `while True:` loop has
no break, so the `time.sleep(time_between_rounds)` after it is unreachable and
the trace is exactly the concatenation of the per-pass events, each pass
starting immediately after the previous one's last chunk sleep. -/
theorem C6_round_wait_dead (N : ℕ) (passes : List (List ℕ)) :
    Event.sleepRound ∉ runloopTrace N passes ∧
    runloopTrace N passes = passes.flatMap (passEvents N) := by
  constructor
  · simp [runloopTrace, runloopCond, passEvents, List.mem_flatMap]
  · simp [runloopTrace, runloopCond]

/-- C9: an endpoint with exactly one alive latency makes `gather_stats` fail:
`statistics.quantiles` with the inclusive method needs two data points. -/
theorem C9_singleton_error (records : PingRecords)
    (h : (aliveLatencies records).length = 1) :
    gatherStatsFor records = .error "must have at least two data points" := by
  simp [gatherStatsFor, quantilesInclusive, h]

/-- Witness for C9 at a concrete log with one alive and one dead record. -/
theorem C9_witness :
    gatherStatsFor [((3 : ℚ), true), ((9 : ℚ), false)] =
      .error "must have at least two data points" :=
  C9_singleton_error _ (by decide)

/-- C10: the file loop of `show_stats` never rebinds `r`: with
`display=False` and nonempty results the file write dies with a `NameError`
after only the header, and with `display=True` every file data row carries
the field values of the summary bound last by the console loop. -/
theorem C10_stale_row_var (results : List (String × Summary))
    (h : results ≠ []) :
    show_stats results false true =
      ⟨[], [csvHeader], some "NameError: name r is not defined"⟩ ∧
    ∀ rl, (results.map Prod.snd).getLast? = some rl →
      show_stats results true true =
        ⟨csvHeader :: results.map (fun p => formatRow p.1 p.2),
         csvHeader :: results.map (fun p => formatRow p.1 rl), none⟩ := by
  constructor
  · simp [show_stats, List.isEmpty_iff, h]
  · intro rl hrl
    simp [show_stats, hrl]

/-- Witness for C10 at a concrete one-row result set. -/
theorem C10_witness :
    show_stats [("10.0.0.9", exSummaryB)] false true =
      ⟨[], [csvHeader], some "NameError: name r is not defined"⟩ :=
  (C10_stale_row_var _ (by simp)).1

/-- Evaluation lemma: `roundHalfEven` is the identity on integral values. -/
theorem roundHalfEven_intCast (z : ℤ) : roundHalfEven ((z : ℚ)) = z := by
  unfold roundHalfEven
  norm_num

/-- Evaluation lemma for `fmt2` at a value with an exact two-decimal
representation `z / 100`. -/
theorem fmt2_eval (q : ℚ) (z : ℤ) (h : q * 100 = (z : ℚ)) :
    fmt2 q = (if z < 0 then "-" else "") ++ toString (z.natAbs / 100) ++ "."
      ++ (if z.natAbs % 100 < 10 then "0" else "") ++ toString (z.natAbs % 100) := by
  unfold fmt2
  rw [h, roundHalfEven_intCast]

/-- Evaluation of the console row for `exSummaryA` at address `10.0.0.1`. -/
theorem formatRow_exA :
    formatRow "10.0.0.1" exSummaryA = "10.0.0.1,10,1.00,5.00,2.50,4.90,8" := by
  unfold formatRow exSummaryA
  rw [fmt2_eval 1 100 (by norm_num), fmt2_eval 5 500 (by norm_num),
      fmt2_eval (5 / 2) 250 (by norm_num), fmt2_eval (49 / 10) 490 (by norm_num)]
  rfl

/-- Evaluation of the row rendered from `exSummaryB` fields at `10.0.0.1`. -/
theorem formatRow_exB1 :
    formatRow "10.0.0.1" exSummaryB = "10.0.0.1,7,2.00,9.00,6.00,8.50,4" := by
  unfold formatRow exSummaryB
  rw [fmt2_eval 2 200 (by norm_num), fmt2_eval 9 900 (by norm_num),
      fmt2_eval 6 600 (by norm_num), fmt2_eval (17 / 2) 850 (by norm_num)]
  rfl

/-- Evaluation of the row rendered from `exSummaryB` fields at `10.0.0.2`. -/
theorem formatRow_exB2 :
    formatRow "10.0.0.2" exSummaryB = "10.0.0.2,7,2.00,9.00,6.00,8.50,4" := by
  unfold formatRow exSummaryB
  rw [fmt2_eval 2 200 (by norm_num), fmt2_eval 9 900 (by norm_num),
      fmt2_eval 6 600 (by norm_num), fmt2_eval (17 / 2) 850 (by norm_num)]
  rfl

/-- C8: the console path renders the spec's example summary exactly as
`10.0.0.1,10,1.00,5.00,2.50,4.90,8` under the fixed header, but the
output-file path does not render each summary with its own fields: at a
two-endpoint result set every file data row carries the last endpoint's
fields, and with `display=False` the file path fails outright. -/
theorem C8_rendering_bug :
    (show_stats [("10.0.0.1", exSummaryA)] true false).console
        = [csvHeader, "10.0.0.1,10,1.00,5.00,2.50,4.90,8"] ∧
    (show_stats [("10.0.0.1", exSummaryA), ("10.0.0.2", exSummaryB)] true true).file
        = [csvHeader, "10.0.0.1,7,2.00,9.00,6.00,8.50,4",
           "10.0.0.2,7,2.00,9.00,6.00,8.50,4"] ∧
    formatRow "10.0.0.1" exSummaryA ≠ "10.0.0.1,7,2.00,9.00,6.00,8.50,4" ∧
    (show_stats [("10.0.0.1", exSummaryA)] false true).err
        = some "NameError: name r is not defined" := by
  refine ⟨?_, ?_, ?_, rfl⟩
  · simp [show_stats, formatRow_exA]
  · simp [show_stats, formatRow_exB1, formatRow_exB2]
  · rw [formatRow_exA]
    decide

/-- Membership in the table after `addIps`: exactly the old rows and the
inserted hosts. -/
theorem addIps_mem :
    ∀ (hosts : List ℕ) (t : DestTable) (x : ℕ),
      x ∈ (addIps t hosts).1.rows ↔ x ∈ t.rows ∨ x ∈ hosts := by
  intro hosts
  induction hosts with
  | nil => intro t x; simp [addIps]
  | cons ip rest ih =>
    intro t x
    by_cases hmem : ip ∈ t.rows
    · simp only [addIps, if_pos hmem, ih, List.mem_cons]
      constructor
      · rintro (h | h) <;> tauto
      · rintro (h | rfl | h) <;> tauto
    · simp only [addIps, if_neg hmem, ih, List.mem_append, List.mem_cons,
        List.mem_singleton, List.not_mem_nil]
      tauto

/-- When every host is already tracked, `addIps` changes nothing and reports
every host as skipped. -/
theorem addIps_all_present :
    ∀ (hosts : List ℕ) (t : DestTable), (∀ x ∈ hosts, x ∈ t.rows) →
      addIps t hosts = (t, hosts.length) := by
  intro hosts
  induction hosts with
  | nil => intro t _; simp [addIps]
  | cons ip rest ih =>
    intro t h
    have hip : ip ∈ t.rows := h ip (List.mem_cons_self ip rest)
    have hrest := ih t (fun x hx => h x (List.mem_cons_of_mem ip hx))
    simp [addIps, hip, hrest]

/-- C7: registering a subnet inserts into the tracked table exactly the
subnet's usable host addresses (for prefix length at most 30 these are the
addresses strictly between the network and broadcast addresses); an address
already tracked is skipped rather than raising, and a second registration of
the same subnet inserts nothing, leaves the table unchanged, and reports every
host as skipped. -/
theorem C7_register_subnet (t : DestTable) (net plen : ℕ) :
    (∀ x, x ∈ (addIps t (hostsOf net plen)).1.rows ↔
        x ∈ t.rows ∨ x ∈ hostsOf net plen) ∧
    addIps (addIps t (hostsOf net plen)).1 (hostsOf net plen)
      = ((addIps t (hostsOf net plen)).1, (hostsOf net plen).length) ∧
    (plen ≤ 30 → ∀ x, x ∈ hostsOf net plen ↔
        net < x ∧ x < net + 2 ^ (32 - plen) - 1) := by
  refine ⟨fun x => addIps_mem _ _ _, ?_, ?_⟩
  · apply addIps_all_present
    intro x hx
    rw [addIps_mem]
    right
    exact hx
  · intro hplen x
    have hpow : 4 ≤ 2 ^ (32 - plen) := by
      calc (4 : ℕ) = 2 ^ 2 := by norm_num
      _ ≤ 2 ^ (32 - plen) := Nat.pow_le_pow_right (by norm_num) (by omega)
    have hlt : ¬ 31 ≤ plen := by omega
    simp only [hostsOf, if_neg hlt, List.mem_map, List.mem_range]
    constructor
    · rintro ⟨k, hk, rfl⟩
      omega
    · rintro ⟨h1, h2⟩
      exact ⟨x - net - 1, by omega, by omega⟩

/-- Second-call no-op instance of C7 at a concrete table and the /30 subnet
at network address 0 (hosts 1 and 2). -/
theorem C7_witness :
    addIps (addIps ⟨[5]⟩ (hostsOf 0 30)).1 (hostsOf 0 30)
      = ((addIps ⟨[5]⟩ (hostsOf 0 30)).1, (hostsOf 0 30).length) :=
  (C7_register_subnet ⟨[5]⟩ 0 30).2.1

/-- Concatenating the batch slices of one pass gives back the working list. -/
theorem pingChunks_flatten (N : ℕ) (hN : N ≠ 0) :
    ∀ (l : List ℕ), (pingChunks N l).flatten = l := by
  intro l
  induction l using pingChunks.induct N with
  | case1 l h =>
    rcases h with h | h
    · exact absurd h hN
    · subst h
      rw [pingChunks]
      simp
  | case2 l h ih =>
    rw [pingChunks, dif_neg h]
    simp only [List.flatten_cons, ih, List.take_append_drop]

/-- The number of batch slices is the ceiling of `length / N`. -/
theorem pingChunks_length (N : ℕ) (hN : N ≠ 0) :
    ∀ (l : List ℕ), (pingChunks N l).length = (l.length + N - 1) / N := by
  have hNpos : 0 < N := Nat.pos_of_ne_zero hN
  intro l
  induction l using pingChunks.induct N with
  | case1 l h =>
    rcases h with h | h
    · exact absurd h hN
    · subst h
      rw [pingChunks]
      simp [Nat.div_eq_of_lt (show N - 1 < N by omega)]
  | case2 l h ih =>
    push_neg at h
    have hL : 0 < l.length := List.length_pos.mpr h.2
    rw [pingChunks, dif_neg (by push_neg; exact h)]
    simp only [List.length_cons, ih, List.length_drop]
    rcases le_or_lt l.length N with hc | hc
    · have h1 : l.length - N = 0 := by omega
      rw [h1]
      have h2 : (0 + N - 1) / N = 0 := Nat.div_eq_of_lt (by omega)
      have h3 : l.length + N - 1 = (l.length - 1) + N := by omega
      rw [h2, h3, Nat.add_div_right _ hNpos, Nat.div_eq_of_lt (by omega)]
    · have h3 : l.length - N + N - 1 = (l.length - N - 1) + N := by omega
      have h4 : l.length + N - 1 = ((l.length - N - 1) + N) + N := by omega
      rw [h3, h4, Nat.add_div_right _ hNpos, Nat.add_div_right _ hNpos,
          Nat.add_div_right _ hNpos]

/-- Every batch slice is nonempty and holds at most `N` endpoints. -/
theorem pingChunks_sizes (N : ℕ) :
    ∀ (l : List ℕ), ∀ c ∈ pingChunks N l, c ≠ [] ∧ c.length ≤ N := by
  intro l
  induction l using pingChunks.induct N with
  | case1 l h =>
    rw [pingChunks, dif_pos h]
    intro c hc
    exact absurd hc (List.not_mem_nil c)
  | case2 l h ih =>
    push_neg at h
    rw [pingChunks, dif_neg (by push_neg; exact h)]
    intro c hc
    rcases List.mem_cons.mp hc with rfl | hc2
    · constructor
      · have : 0 < (l.take N).length := by
          rw [List.length_take]
          have := List.length_pos.mpr h.2
          omega
        exact List.ne_nil_of_length_pos this
      · rw [List.length_take]
        omega
    · exact ih c hc2

/-- Every batch slice except possibly the last holds exactly `N` endpoints. -/
theorem pingChunks_dropLast (N : ℕ) :
    ∀ (l : List ℕ), ∀ c ∈ (pingChunks N l).dropLast, c.length = N := by
  intro l
  induction l using pingChunks.induct N with
  | case1 l h =>
    rw [pingChunks, dif_pos h]
    intro c hc
    exact absurd hc (List.not_mem_nil c)
  | case2 l h ih =>
    push_neg at h
    rw [pingChunks, dif_neg (by push_neg; exact h)]
    cases hrest : pingChunks N (l.drop N) with
    | nil => simp
    | cons c0 cs =>
      intro c hc
      rw [List.dropLast_cons₂] at hc
      rcases List.mem_cons.mp hc with rfl | hc2
      · have hdrop : l.drop N ≠ [] := by
          intro hd
          rw [hd, pingChunks] at hrest
          simp at hrest
        have : N < l.length := by
          have := List.length_pos.mpr hdrop
          rw [List.length_drop] at this
          omega
        rw [List.length_take]
        omega
      · rw [← hrest] at hc2
        exact ih c hc2

/-- C3: one pass of the scheduler partitions the (possibly shuffled) working
list into exactly `⌈L/N⌉` consecutive batches, each nonempty and of size at
most `N`, every batch except possibly the last of size exactly `N`; their
concatenation is the working list itself, so every endpoint occurrence of the
list lands in exactly one batch. -/
theorem C3_batch_partition (l : List ℕ) (N : ℕ) (hN : 0 < N) :
    (pingChunks N l).length = (l.length + N - 1) / N ∧
    (pingChunks N l).flatten = l ∧
    (∀ c ∈ (pingChunks N l).dropLast, c.length = N) ∧
    (∀ c ∈ pingChunks N l, c ≠ [] ∧ c.length ≤ N) ∧
    (∀ x : ℕ, ((pingChunks N l).map (List.count x)).sum = l.count x) := by
  have hN0 : N ≠ 0 := Nat.pos_iff_ne_zero.mp hN
  refine ⟨pingChunks_length N hN0 l, pingChunks_flatten N hN0 l,
    pingChunks_dropLast N l, pingChunks_sizes N l, fun x => ?_⟩
  rw [← List.count_flatten, pingChunks_flatten N hN0 l]

/-- Instance of C3 at a five-endpoint list with batches of two. -/
theorem C3_witness :
    (pingChunks 2 [1, 2, 3, 4, 5]).flatten = [1, 2, 3, 4, 5] :=
  (C3_batch_partition [1, 2, 3, 4, 5] 2 (by norm_num)).2.1

/-- Folding `min` over a list never exceeds the start value. -/
theorem foldl_min_le_init : ∀ (l : List ℚ) (z : ℚ), l.foldl min z ≤ z := by
  intro l
  induction l with
  | nil => intro z; simp
  | cons a t ih =>
    intro z
    calc t.foldl min (min z a) ≤ min z a := ih (min z a)
    _ ≤ z := min_le_left _ _

/-- Folding `min` over a list is a lower bound of start value and elements. -/
theorem foldl_min_le_mem :
    ∀ (xs : List ℚ) (x y : ℚ), y ∈ x :: xs → xs.foldl min x ≤ y := by
  intro xs
  induction xs with
  | nil =>
    intro x y hy
    rcases List.mem_cons.mp hy with rfl | hy2
    · simp
    · exact absurd hy2 (List.not_mem_nil y)
  | cons a t ih =>
    intro x y hy
    simp only [List.foldl_cons]
    rcases List.mem_cons.mp hy with rfl | hy2
    · calc t.foldl min (min y a) ≤ min y a := foldl_min_le_init t _
      _ ≤ y := min_le_left _ _
    · rcases List.mem_cons.mp hy2 with rfl | hy3
      · calc t.foldl min (min x y) ≤ min x y := foldl_min_le_init t _
        _ ≤ y := min_le_right _ _
      · exact ih (min x a) y (List.mem_cons.mpr (Or.inr hy3))

/-- Folding `max` over a list is at least the start value. -/
theorem le_foldl_max_init : ∀ (l : List ℚ) (z : ℚ), z ≤ l.foldl max z := by
  intro l
  induction l with
  | nil => intro z; simp
  | cons a t ih =>
    intro z
    calc z ≤ max z a := le_max_left _ _
    _ ≤ t.foldl max (max z a) := ih (max z a)

/-- Folding `max` over a list is an upper bound of start value and elements. -/
theorem le_foldl_max_mem :
    ∀ (xs : List ℚ) (x y : ℚ), y ∈ x :: xs → y ≤ xs.foldl max x := by
  intro xs
  induction xs with
  | nil =>
    intro x y hy
    rcases List.mem_cons.mp hy with rfl | hy2
    · simp
    · exact absurd hy2 (List.not_mem_nil y)
  | cons a t ih =>
    intro x y hy
    simp only [List.foldl_cons]
    rcases List.mem_cons.mp hy with rfl | hy2
    · calc y ≤ max y a := le_max_left _ _
      _ ≤ t.foldl max (max y a) := le_foldl_max_init t _
    · rcases List.mem_cons.mp hy2 with rfl | hy3
      · calc y ≤ max x y := le_max_right _ _
        _ ≤ t.foldl max (max x y) := le_foldl_max_init t _
      · exact ih (max x a) y (List.mem_cons.mpr (Or.inr hy3))

/-- Python `min` bounds every member of the list from below. -/
theorem pyMin_le {lat : List ℚ} {y : ℚ} (d : ℚ) (hy : y ∈ lat) : pyMin lat d ≤ y := by
  cases lat with
  | nil => exact absurd hy (List.not_mem_nil y)
  | cons x xs => exact foldl_min_le_mem xs x y hy

/-- Python `max` bounds every member of the list from above. -/
theorem le_pyMax {lat : List ℚ} {y : ℚ} (d : ℚ) (hy : y ∈ lat) : y ≤ pyMax lat d := by
  cases lat with
  | nil => exact absurd hy (List.not_mem_nil y)
  | cons x xs => exact le_foldl_max_mem xs x y hy

/-- Positional access into a sorted list is monotone in the index. -/
theorem sorted_getD_le {s : List ℚ} (hs : s.Sorted (· ≤ ·)) {i k : ℕ}
    (hik : i ≤ k) (hk : k < s.length) : s.getD i 0 ≤ s.getD k 0 := by
  have hi : i < s.length := lt_of_le_of_lt hik hk
  rw [List.getD_eq_getElem _ _ hi, List.getD_eq_getElem _ _ hk]
  rcases Nat.lt_or_ge i k with hlt | hge
  · exact List.Sorted.rel_get_of_lt hs (a := ⟨i, hi⟩) (b := ⟨k, hk⟩) hlt
  · have : i = k := by omega
    subst this
    exact le_refl _

/-- In-bounds positional access yields a list member. -/
theorem getD_mem_of_lt {s : List ℚ} {i : ℕ} (h : i < s.length) : s.getD i 0 ∈ s := by
  rw [List.getD_eq_getElem _ _ h]
  exact List.getElem_mem h

/-- Closed form of entry 94 of `quantilesInclusive · 100` (the reported 95th
percentile), as a function of the sorted latency list. -/
def p95val (s : List ℚ) : ℚ :=
  (s.getD (95 * (s.length - 1) / 100) 0 * ((100 : ℚ) - ((95 * (s.length - 1) % 100 : ℕ) : ℚ))
    + s.getD (95 * (s.length - 1) / 100 + 1) 0 * ((95 * (s.length - 1) % 100 : ℕ) : ℚ)) / 100

/-- With at least two data points, `quantilesInclusive` succeeds and its entry
94 is the closed form `p95val` of the sorted list. -/
theorem quantiles_getD94 {lat : List ℚ} (h2 : 2 ≤ lat.length) :
    ∃ ps, quantilesInclusive lat 100 = .ok ps ∧
      ps.getD 94 0 = p95val (lat.insertionSort (· ≤ ·)) := by
  have hs : (lat.insertionSort (· ≤ ·)).length = lat.length :=
    List.length_insertionSort _ _
  simp only [quantilesInclusive]
  rw [if_neg (by norm_num), if_neg (by omega)]
  refine ⟨_, rfl, ?_⟩
  rw [List.getD_eq_getElem _ _ (by simp), List.getElem_map, List.getElem_range]
  simp only [p95val]
  norm_num

/-- With at least two alive latencies, `gatherStatsFor` succeeds, with each
field given by the corresponding statistic of the alive-latency list. -/
theorem gatherStatsFor_eq_ok {records : PingRecords}
    (h2 : 2 ≤ (aliveLatencies records).length) :
    gatherStatsFor records = .ok
      { total_pings := records.length,
        min_rtt := pyMin (aliveLatencies records) 0,
        max_rtt := pyMax (aliveLatencies records) 0,
        median_rtt := pyMedian (aliveLatencies records) 0,
        p95_rtt := p95val ((aliveLatencies records).insertionSort (· ≤ ·)),
        total_alive := (records.filter (fun r => r.2)).length } := by
  obtain ⟨ps, hps, h94⟩ := quantiles_getD94 h2
  simp only [gatherStatsFor]
  rw [if_neg (by omega), hps]
  exact congrArg Except.ok (by rw [h94])

/-- Unfolding of `pyMedian` on nonempty data, in terms of the sorted list. -/
theorem pyMedian_eq {lat : List ℚ} (h1 : 1 ≤ lat.length) :
    pyMedian lat 0 =
      (if (lat.insertionSort (· ≤ ·)).length % 2 = 1
       then (lat.insertionSort (· ≤ ·)).getD ((lat.insertionSort (· ≤ ·)).length / 2) 0
       else ((lat.insertionSort (· ≤ ·)).getD ((lat.insertionSort (· ≤ ·)).length / 2 - 1) 0
             + (lat.insertionSort (· ≤ ·)).getD ((lat.insertionSort (· ≤ ·)).length / 2) 0) / 2) := by
  have hs : (lat.insertionSort (· ≤ ·)).length = lat.length :=
    List.length_insertionSort _ _
  simp only [pyMedian]
  rw [if_neg (by omega)]

/-- Core inequality: on a sorted list of length at least two, the median is at
most the interpolated 95th percentile. -/
theorem med_le_p95_sorted {s : List ℚ} (hsorted : s.Sorted (· ≤ ·))
    (h2 : 2 ≤ s.length) :
    (if s.length % 2 = 1 then s.getD (s.length / 2) 0
     else (s.getD (s.length / 2 - 1) 0 + s.getD (s.length / 2) 0) / 2) ≤ p95val s := by
  simp only [p95val]
  set n := s.length with hn
  set j := 95 * (n - 1) / 100 with hj
  set d := 95 * (n - 1) % 100 with hd
  have hjm : j + 1 < n := by omega
  have hd100 : d < 100 := by omega
  have hjj : s.getD j 0 ≤ s.getD (j + 1) 0 :=
    sorted_getD_le hsorted (Nat.le_succ j) hjm
  have hd0 : (0 : ℚ) ≤ (d : ℚ) := Nat.cast_nonneg d
  have hd100Q : (d : ℚ) ≤ 100 := by exact_mod_cast hd100.le
  have hbase : s.getD j 0 ≤
      (s.getD j 0 * ((100 : ℚ) - (d : ℚ)) + s.getD (j + 1) 0 * (d : ℚ)) / 100 := by
    nlinarith [mul_le_mul_of_nonneg_right hjj hd0]
  split_ifs with hodd
  · have hidx : n / 2 ≤ j := by omega
    calc s.getD (n / 2) 0 ≤ s.getD j 0 := sorted_getD_le hsorted hidx (by omega)
    _ ≤ _ := hbase
  · rcases le_or_lt (n / 2) j with hc | hc
    · have hmed : (s.getD (n / 2 - 1) 0 + s.getD (n / 2) 0) / 2 ≤ s.getD (n / 2) 0 := by
        have := sorted_getD_le hsorted (show n / 2 - 1 ≤ n / 2 by omega) (show n / 2 < n by omega)
        linarith
      have hup : s.getD (n / 2) 0 ≤ s.getD j 0 := sorted_getD_le hsorted hc (by omega)
      linarith
    · have hje : n / 2 - 1 = j := by omega
      have hj1 : n / 2 = j + 1 := by omega
      have hd50 : 50 ≤ d := by omega
      have hd50Q : (50 : ℚ) ≤ (d : ℚ) := by exact_mod_cast hd50
      rw [hje, hj1]
      nlinarith [mul_le_mul_of_nonneg_right hjj (by linarith : (0 : ℚ) ≤ (d : ℚ) - 50)]

/-- On nonempty data the Python minimum is at most the Python median. -/
theorem pyMin_le_pyMedian {lat : List ℚ} (h1 : 1 ≤ lat.length) :
    pyMin lat 0 ≤ pyMedian lat 0 := by
  have hs : (lat.insertionSort (· ≤ ·)).length = lat.length :=
    List.length_insertionSort _ _
  rw [pyMedian_eq h1]
  split_ifs with hodd
  · apply pyMin_le
    have hmem := getD_mem_of_lt
      (show (lat.insertionSort (· ≤ ·)).length / 2 < (lat.insertionSort (· ≤ ·)).length by omega)
    rwa [List.mem_insertionSort] at hmem
  · have ha := getD_mem_of_lt
      (show (lat.insertionSort (· ≤ ·)).length / 2 - 1 < (lat.insertionSort (· ≤ ·)).length by omega)
    have hb := getD_mem_of_lt
      (show (lat.insertionSort (· ≤ ·)).length / 2 < (lat.insertionSort (· ≤ ·)).length by omega)
    rw [List.mem_insertionSort] at ha hb
    have l1 := pyMin_le 0 ha
    have l2 := pyMin_le 0 hb
    linarith

/-- On nonempty data the Python median is at most the Python maximum. -/
theorem pyMedian_le_pyMax {lat : List ℚ} (h1 : 1 ≤ lat.length) :
    pyMedian lat 0 ≤ pyMax lat 0 := by
  have hs : (lat.insertionSort (· ≤ ·)).length = lat.length :=
    List.length_insertionSort _ _
  rw [pyMedian_eq h1]
  split_ifs with hodd
  · apply le_pyMax
    have hmem := getD_mem_of_lt
      (show (lat.insertionSort (· ≤ ·)).length / 2 < (lat.insertionSort (· ≤ ·)).length by omega)
    rwa [List.mem_insertionSort] at hmem
  · have ha := getD_mem_of_lt
      (show (lat.insertionSort (· ≤ ·)).length / 2 - 1 < (lat.insertionSort (· ≤ ·)).length by omega)
    have hb := getD_mem_of_lt
      (show (lat.insertionSort (· ≤ ·)).length / 2 < (lat.insertionSort (· ≤ ·)).length by omega)
    rw [List.mem_insertionSort] at ha hb
    have l1 := le_pyMax 0 ha
    have l2 := le_pyMax 0 hb
    linarith

/-- The code's interpolation (entry 94 of the inclusive quantiles) agrees with
the specification's inclusive 95 % quantile formula. -/
theorem p95val_eq_spec (lat : List ℚ) :
    p95val (lat.insertionSort (· ≤ ·)) = inclusiveQuantile95Spec lat := by
  simp only [p95val, inclusiveQuantile95Spec]
  set s := lat.insertionSort (· ≤ ·) with hsdef
  set m := s.length - 1 with hm
  set j := 95 * m / 100 with hj
  set d := 95 * m % 100 with hd
  have hsplit : 95 * m = 100 * j + d := by omega
  have hcast : ((95 * m : ℕ) : ℚ) / 100 - (j : ℚ) = (d : ℚ) / 100 := by
    have hq : ((95 * m : ℕ) : ℚ) = 100 * (j : ℚ) + (d : ℚ) := by exact_mod_cast hsplit
    rw [hq]
    ring
  rw [hcast]
  ring

/-- C4: whenever latency statistics are computed (at least two alive
latencies), the reported 95th percentile equals the 95 % quantile of the
sorted alive-latency list under the inclusive interpolation convention, data
minimum and maximum serving as the 0th and 100th percentiles. -/
theorem C4_p95_inclusive (records : PingRecords)
    (h2 : 2 ≤ (aliveLatencies records).length) :
    ∃ s, gatherStatsFor records = .ok s ∧
      s.p95_rtt = inclusiveQuantile95Spec (aliveLatencies records) :=
  ⟨_, gatherStatsFor_eq_ok h2, p95val_eq_spec (aliveLatencies records)⟩

/-- Witness for C4 at a two-latency log. -/
theorem C4_witness :
    ∃ s, gatherStatsFor [((1 : ℚ), true), ((3 : ℚ), true)] = .ok s ∧
      s.p95_rtt = inclusiveQuantile95Spec (aliveLatencies [((1 : ℚ), true), ((3 : ℚ), true)]) :=
  C4_p95_inclusive _ (by decide)

/-- C5 counterexample: at a log whose alive-latency set is the nonempty
singleton `[7]`, `gather_stats` raises instead of producing a summary, so the
claim as stated fails. -/
theorem C5_counterexample :
    gatherStatsFor [((7 : ℚ), true)] = .error "must have at least two data points" ∧
    ¬ ∃ s, gatherStatsFor [((7 : ℚ), true)] = .ok s := by
  have herr : gatherStatsFor [((7 : ℚ), true)] = .error "must have at least two data points" := by
    simp [gatherStatsFor, quantilesInclusive, aliveLatencies]
  refine ⟨herr, ?_⟩
  rintro ⟨s, hs⟩
  rw [herr] at hs
  exact Except.noConfusion hs

/-- C5 (amended): for every endpoint with at least two alive latencies,
`gather_stats` produces a summary with `min_rtt ≤ median_rtt ≤ max_rtt` and
`95th_rtt ≥ median_rtt`. -/
theorem C5_amended_stats (records : PingRecords)
    (h2 : 2 ≤ (aliveLatencies records).length) :
    ∃ s, gatherStatsFor records = .ok s ∧
      s.min_rtt ≤ s.median_rtt ∧ s.median_rtt ≤ s.max_rtt ∧ s.median_rtt ≤ s.p95_rtt := by
  refine ⟨_, gatherStatsFor_eq_ok h2, ?_, ?_, ?_⟩
  · exact pyMin_le_pyMedian (by omega)
  · exact pyMedian_le_pyMax (by omega)
  · have hsorted := List.sorted_insertionSort (· ≤ ·) (aliveLatencies records)
    have hlen : 2 ≤ ((aliveLatencies records).insertionSort (· ≤ ·)).length := by
      rw [List.length_insertionSort]
      exact h2
    have hkey := med_le_p95_sorted hsorted hlen
    show pyMedian (aliveLatencies records) 0 ≤ p95val ((aliveLatencies records).insertionSort (· ≤ ·))
    rw [pyMedian_eq (by omega)]
    exact hkey

/-- Witness for the amended C5 at a three-latency log. -/
theorem C5_witness :
    ∃ s, gatherStatsFor [((1 : ℚ), true), ((5 : ℚ), true), ((2 : ℚ), true)] = .ok s ∧
      s.min_rtt ≤ s.median_rtt ∧ s.median_rtt ≤ s.max_rtt ∧ s.median_rtt ≤ s.p95_rtt :=
  C5_amended_stats _ (by decide)

end Pinglong
